import Mathlib

/-!
# Verification of the `ccnewline` path-extraction / filtering / newline-repair pipeline

Shallow embedding of the Go sources of the `ccnewline` repository.  Text is
modelled as `List Char` (Go strings are byte slices; all inputs of interest
are well-formed UTF-8, which Go decodes to the same rune sequence).  The
embedding covers:

* the Go string helpers the program uses (`strings.TrimSpace`, `strings.Split`,
  `strings.Join`) — section "Text primitives";
* the subset of `encoding/json.Unmarshal` behaviour the program relies on
  (unmarshalling into `map[string]any`) — section "JSON";
* `path/filepath.Match` and `filepath.Base` — section "Glob matching";
* the `internal/toolinput` path extractor and the historical single-file
  (`main.go`) composite parser — sections "toolinput" and "main.go parser";
* the `internal/processing` file pipeline over an explicit filesystem model —
  section "processing";
* the `internal/cli` flag/validation layer — section "cli".
-/

namespace Ccnewline

/-- Go strings, modelled as their rune sequences. -/
abbrev Str := List Char

/-! ## Text primitives (Go `strings` / `unicode` package) -/

/-- Go `unicode.IsSpace`: the Unicode white-space property (Latin-1 fast path
plus the Zs / line-separator code points). -/
def isSpaceGo (c : Char) : Bool :=
  c = ' ' || c = '\t' || c = '\n' || (c.toNat = 11) || (c.toNat = 12) ||
  c = '\r' || c.toNat = 0x85 || c.toNat = 0xA0 ||
  c.toNat = 0x1680 || (0x2000 ≤ c.toNat && c.toNat ≤ 0x200A) ||
  c.toNat = 0x2028 || c.toNat = 0x2029 || c.toNat = 0x202F ||
  c.toNat = 0x205F || c.toNat = 0x3000

/-- Left half of Go `strings.TrimSpace`. -/
def trimLeftGo (s : Str) : Str := s.dropWhile isSpaceGo

/-- Right half of Go `strings.TrimSpace`. -/
def trimRightGo (s : Str) : Str := (s.reverse.dropWhile isSpaceGo).reverse

/-- Go `strings.TrimSpace`. -/
def trimSpaceGo (s : Str) : Str := trimRightGo (trimLeftGo s)

/-- Go `strings.Split(s, sep)` for a single-character separator: splits at each
occurrence, keeping empty pieces (`Split("", sep) = [""]`). -/
def splitOnCharGo (sep : Char) : Str → List Str
  | [] => [[]]
  | c :: cs =>
    if c = sep then [] :: splitOnCharGo sep cs
    else
      match splitOnCharGo sep cs with
      | [] => [[c]]
      | l :: ls => (c :: l) :: ls

/-- Go `strings.Split(s, "\n")`. -/
def splitLines (s : Str) : List Str := splitOnCharGo '\n' s

/-- Go `strings.Join(parts, sep)` for a single-character separator. -/
def joinWithGo (sep : Char) : List Str → Str
  | [] => []
  | [l] => l
  | l :: ls => l ++ sep :: joinWithGo sep ls

/-- Go `strings.Join(lines, "\n")`. -/
def joinLines (L : List Str) : Str := joinWithGo '\n' L

/-! ## JSON (the subset of `encoding/json.Unmarshal` behaviour the program uses)

The program only ever unmarshals into `map[string]any`, so the embedding
models the generic representation Go produces: JSON objects become key/value
association lists with Go-map semantics (a duplicated key keeps the last
value), arrays become lists, and numbers are only ever inspected for their
type, so their value is not retained.  `\uXXXX` escapes are decoded to the
code point named by the four hex digits (surrogate halves, which Go replaces,
decode to `Char.ofNat`'s default; no claim depends on them). -/

inductive JValue where
  | null
  | boolean (b : Bool)
  | number
  | str (s : Str)
  | arr (elems : List JValue)
  | obj (fields : List (Str × JValue))

/-- JSON inter-token whitespace (`encoding/json`: space, tab, newline, CR). -/
def skipWs (s : Str) : Str :=
  s.dropWhile (fun c => c = ' ' || c = '\t' || c = '\n' || c = '\r')

def isDigitCh (c : Char) : Bool := '0' ≤ c && c ≤ '9'

def hexVal (c : Char) : Option Nat :=
  let n := c.toNat
  if 48 ≤ n && n ≤ 57 then some (n - 48)
  else if 97 ≤ n && n ≤ 102 then some (n - 87)
  else if 65 ≤ n && n ≤ 70 then some (n - 55)
  else none

/-- Body of a JSON string literal (opening quote already consumed); returns the
decoded content and the input after the closing quote. -/
def parseStringBody : Nat → Str → Option (Str × Str)
  | 0, _ => none
  | _ + 1, [] => none
  | fuel + 1, c :: cs =>
    if c = '"' then some ([], cs)
    else if c = '\\' then
      match cs with
      | [] => none
      | e :: es =>
        if e = '"' || e = '\\' || e = '/' then
          (parseStringBody fuel es).map (fun (a, r) => (e :: a, r))
        else if e = 'b' then
          (parseStringBody fuel es).map (fun (a, r) => (Char.ofNat 8 :: a, r))
        else if e = 'f' then
          (parseStringBody fuel es).map (fun (a, r) => (Char.ofNat 12 :: a, r))
        else if e = 'n' then
          (parseStringBody fuel es).map (fun (a, r) => ('\n' :: a, r))
        else if e = 'r' then
          (parseStringBody fuel es).map (fun (a, r) => ('\r' :: a, r))
        else if e = 't' then
          (parseStringBody fuel es).map (fun (a, r) => ('\t' :: a, r))
        else if e = 'u' then
          match es with
          | h1 :: h2 :: h3 :: h4 :: es' =>
            match hexVal h1, hexVal h2, hexVal h3, hexVal h4 with
            | some a, some b, some c', some d =>
              (parseStringBody fuel es').map
                (fun (acc, r) => (Char.ofNat (((a * 16 + b) * 16 + c') * 16 + d) :: acc, r))
            | _, _, _, _ => none
          | _ => none
        else none
    else if c.toNat < 0x20 then none
    else (parseStringBody fuel cs).map (fun (a, r) => (c :: a, r))

/-- Integer part of a JSON number: `0`, or a nonzero digit followed by digits. -/
def parseIntPart : Str → Option Str
  | [] => none
  | c :: cs =>
    if c = '0' then some cs
    else if isDigitCh c then some (cs.dropWhile isDigitCh)
    else none

/-- Optional fractional part of a JSON number. -/
def parseFracPart : Str → Option Str
  | '.' :: cs =>
    match cs with
    | d :: _ => if isDigitCh d then some (cs.dropWhile isDigitCh) else none
    | [] => none
  | s => some s

/-- Optional exponent part of a JSON number. -/
def parseExpPart : Str → Option Str
  | c :: cs =>
    if c = 'e' || c = 'E' then
      let cs' := match cs with
        | d :: ds => if d = '+' || d = '-' then ds else d :: ds
        | [] => []
      match cs' with
      | d :: _ => if isDigitCh d then some (cs'.dropWhile isDigitCh) else none
      | [] => none
    else some (c :: cs)
  | [] => some []

/-- Syntax of a JSON number (value not retained); returns the remaining input. -/
def parseNumberGo (s : Str) : Option Str :=
  let s₁ := match s with
    | '-' :: cs => cs
    | _ => s
  match parseIntPart s₁ with
  | none => none
  | some s₂ =>
    match parseFracPart s₂ with
    | none => none
    | some s₃ => parseExpPart s₃

/-- Go-map insertion for object fields: a duplicated key keeps the last value. -/
def insertKV : List (Str × JValue) → Str → JValue → List (Str × JValue)
  | [], k, v => [(k, v)]
  | (k', v') :: rest, k, v =>
    if k' = k then (k', v) :: rest else (k', v') :: insertKV rest k v

/-- Go-map lookup (`m[k]`). -/
def lookupKV : List (Str × JValue) → Str → Option JValue
  | [], _ => none
  | (k', v) :: rest, k => if k' = k then some v else lookupKV rest k

mutual

/-- Recursive-descent parser for a JSON value, mirroring the grammar
`encoding/json` accepts.  The fuel argument only bounds recursion depth; the
top-level entry point supplies more than any input can consume. -/
def parseValue : Nat → Str → Option (JValue × Str)
  | 0, _ => none
  | fuel + 1, s =>
    match skipWs s with
    | [] => none
    | c :: cs =>
      if c = 'n' then
        match cs with
        | 'u' :: 'l' :: 'l' :: rest => some (.null, rest)
        | _ => none
      else if c = 't' then
        match cs with
        | 'r' :: 'u' :: 'e' :: rest => some (.boolean true, rest)
        | _ => none
      else if c = 'f' then
        match cs with
        | 'a' :: 'l' :: 's' :: 'e' :: rest => some (.boolean false, rest)
        | _ => none
      else if c = '"' then
        (parseStringBody fuel cs).map (fun (a, r) => (.str a, r))
      else if c = '[' then
        match skipWs cs with
        | ']' :: rest => some (.arr [], rest)
        | _ => (parseElems fuel cs).map (fun (xs, r) => (.arr xs, r))
      else if c = '{' then
        match skipWs cs with
        | '}' :: rest => some (.obj [], rest)
        | _ => (parseFields fuel cs []).map (fun (kvs, r) => (.obj kvs, r))
      else if c = '-' || isDigitCh c then
        (parseNumberGo (c :: cs)).map (fun r => (.number, r))
      else none

/-- Comma-separated JSON array elements up to the closing bracket. -/
def parseElems : Nat → Str → Option (List JValue × Str)
  | 0, _ => none
  | fuel + 1, s =>
    match parseValue fuel s with
    | none => none
    | some (v, r) =>
      match skipWs r with
      | ',' :: r₂ => (parseElems fuel r₂).map (fun (xs, r₃) => (v :: xs, r₃))
      | ']' :: r₂ => some ([v], r₂)
      | _ => none

/-- Comma-separated JSON object members up to the closing brace, accumulating
fields with Go-map semantics. -/
def parseFields : Nat → Str → List (Str × JValue) → Option (List (Str × JValue) × Str)
  | 0, _, _ => none
  | fuel + 1, s, acc =>
    match skipWs s with
    | '"' :: cs =>
      match parseStringBody fuel cs with
      | none => none
      | some (k, r) =>
        match skipWs r with
        | ':' :: r₂ =>
          match parseValue fuel r₂ with
          | none => none
          | some (v, r₃) =>
            match skipWs r₃ with
            | ',' :: r₄ => parseFields fuel r₄ (insertKV acc k v)
            | '}' :: r₄ => some (insertKV acc k v, r₄)
            | _ => none
        | _ => none
    | _ => none

end

/-- Go `json.Unmarshal(data, &m)` for `m : map[string]any`: the whole input
must be one JSON value (surrounded only by whitespace), and that value must be
an object — or `null`, which Go accepts and leaves the map empty. -/
def unmarshalMapGo (s : Str) : Option (List (Str × JValue)) :=
  match parseValue (4 * (s.length + 1)) s with
  | some (v, rest) =>
    if skipWs rest = [] then
      match v with
      | .obj kvs => some kvs
      | .null => some []
      | _ => none
    else none
  | none => none

/-! ## `internal/toolinput` (package snapshot, `src/unnamed/part_004`) -/

/-- `pathExtractor.extractPathsFromToolInput`: the `path` and `file_path`
fields (in that order), then each element of the `paths` array, keeping only
string values and dropping empty strings. -/
def extractPathsFromToolInput (toolInput : List (Str × JValue)) : List Str :=
  (match lookupKV toolInput "path".data with
    | some (.str v) => if v = [] then [] else [v]
    | _ => []) ++
  (match lookupKV toolInput "file_path".data with
    | some (.str v) => if v = [] then [] else [v]
    | _ => []) ++
  (match lookupKV toolInput "paths".data with
    | some (.arr pathsArray) =>
      pathsArray.filterMap (fun v =>
        match v with
        | .str s => if s = [] then none else some s
        | _ => none)
    | _ => [])

/-- `pathExtractor.parseJSON`: `none` models the unmarshal error; on success
the paths extracted from a `tool_input` object value, `[]` if there is none. -/
def pathExtractorParseJSON (inputText : Str) : Option (List Str) :=
  match unmarshalMapGo inputText with
  | none => none
  | some jsonObj =>
    some (match lookupKV jsonObj "tool_input".data with
      | some (.obj toolInputMap) => extractPathsFromToolInput toolInputMap
      | _ => [])

/-- `pathExtractor.parsePlainText`: each line of the input, trimmed, dropping
blank lines. -/
def parsePlainText (inputText : Str) : List Str :=
  ((splitLines inputText).map trimSpaceGo).filter (fun l => !l.isEmpty)

/-- `pathExtractor.parse`: JSON extraction if unmarshalling succeeds, the
plain-text interpretation otherwise. -/
def pathExtractorParse (inputText : Str) : List Str :=
  match pathExtractorParseJSON inputText with
  | some paths => paths
  | none => parsePlainText inputText

/-- One line as produced by `bufio.Scanner` with `ScanLines`: a trailing
carriage return is dropped. -/
def dropCR (l : Str) : Str :=
  if l.getLast? = some '\r' then l.dropLast else l

/-- The token sequence `bufio.Scanner`/`ScanLines` yields for an input text:
split at newlines, no empty final token for a newline-terminated input, `\r`
stripped before `\n`. -/
def scannerLines (s : Str) : List Str :=
  if s.isEmpty then []
  else
    let L := splitLines s
    (if L.getLast? = some [] then L.dropLast else L).map dropCR

/-- `toolinput.readInputLines`: scanner lines with whitespace-only lines
removed from the start and the end. -/
def readInputLinesPkg (s : Str) : List Str :=
  let lines := scannerLines s
  let rest := lines.dropWhile (fun l => (trimSpaceGo l).isEmpty)
  (rest.reverse.dropWhile (fun l => (trimSpaceGo l).isEmpty)).reverse

/-- `toolinput.ReadToolInput` on an available, fully-read input text: the
extracted path list (`nil` for empty input). -/
def readToolInputModel (s : Str) : List Str :=
  let lines := readInputLinesPkg s
  if lines.isEmpty then []
  else pathExtractorParse (joinLines lines)

/-! ## The single-file snapshot's parser (`src/main.go`) -/

/-- `main.go` `extractPathsFromToolInput` (the `addPath` closure drops empty
strings; `paths` keeps only string elements). -/
def extractPathsFromToolInputMain (toolInput : List (Str × JValue)) : List Str :=
  (match lookupKV toolInput "path".data with
    | some (.str path) => if path = [] then [] else [path]
    | _ => []) ++
  (match lookupKV toolInput "file_path".data with
    | some (.str filePath) => if filePath = [] then [] else [filePath]
    | _ => []) ++
  (match lookupKV toolInput "paths".data with
    | some (.arr pathsArray) =>
      pathsArray.filterMap (fun p =>
        match p with
        | .str pathStr => if pathStr = [] then none else some pathStr
        | _ => none)
    | _ => [])

/-- `main.go` `parseJSONToolInput`: the `tool_input` object of the parsed
JSON, `none` if unmarshalling fails or the field is missing or not an object. -/
def parseJSONToolInput (jsonText : Str) : Option (List (Str × JValue)) :=
  match unmarshalMapGo jsonText with
  | none => none
  | some data =>
    match lookupKV data "tool_input".data with
    | some (.obj toolInput) => some toolInput
    | _ => none

/-- `main.go` `extractFilePaths` (`nil` is modelled as `[]`). -/
def extractFilePaths (jsonText : Str) : List Str :=
  match parseJSONToolInput jsonText with
  | none => []
  | some toolInput => extractPathsFromToolInputMain toolInput

/-- `main.go` `PlainTextParser.Parse`. -/
def plainTextParserParse (inputText : Str) : List Str :=
  ((splitLines inputText).map trimSpaceGo).filter (fun l => !l.isEmpty)

/-- The cleaned line list `CompositeTextParser.Parse` builds before trying its
parsers: lines of the trimmed input, each trimmed, blank lines dropped. -/
def compositeCleanLines (s : Str) : List Str :=
  ((splitLines (trimSpaceGo s)).map trimSpaceGo).filter (fun l => !l.isEmpty)

/-- The joined text `CompositeTextParser.Parse` feeds to its parsers. -/
def compositeCleanedText (s : Str) : Str := joinLines (compositeCleanLines s)

/-- `main.go` `CompositeTextParser.Parse` with its default parser chain
(`JSONTextParser`, whose `CanParse` is "at least one extracted path", then
`PlainTextParser`, whose `CanParse` is always true). -/
def compositeParse (inputText : Str) : List Str :=
  let t := trimSpaceGo inputText
  if t.isEmpty then []
  else
    let cleanLines := ((splitLines t).map trimSpaceGo).filter (fun l => !l.isEmpty)
    if cleanLines.isEmpty then []
    else
      let jsonText := joinLines cleanLines
      let jsonPaths := extractFilePaths jsonText
      if !jsonPaths.isEmpty then jsonPaths
      else
        let plainPaths := plainTextParserParse jsonText
        if !plainPaths.isEmpty then plainPaths
        else []

/-! ## Glob matching (`path/filepath.Match` and `filepath.Base`, Unix rules)

The embedding works rune-by-rune where Go mixes byte and rune operations; the
two coincide on well-formed UTF-8 (and all pattern/path constants in this
development are ASCII).  `filepath.Match`'s `ErrBadPattern` outcomes are
conflated with a non-match: the one caller (`globPatternMatcher.matches`)
discards the error, and a malformed chunk is malformed independently of the
name being matched, so the conflation never changes the matched/unmatched
answer. -/

/-- `filepath.getEsc`: one (possibly backslash-escaped) character of a
character-class range; `none` models `ErrBadPattern`. -/
def getEsc : Str → Option (Char × Str)
  | [] => none
  | c :: cs =>
    if c = '-' || c = ']' then none
    else if c = '\\' then
      match cs with
      | [] => none
      | d :: ds => if ds = [] then none else some (d, ds)
    else if cs = [] then none else some (c, cs)

/-- The `[...]` range loop of `filepath.Match`'s `matchChunk`: consumes ranges
until the closing bracket, accumulating whether the rune `r` matched. -/
def bracketLoop : Nat → Str → Char → Bool → Nat → Option (Str × Bool)
  | 0, _, _, _, _ => none
  | fuel + 1, chunk, r, m, nrange =>
    if chunk.head? = some ']' ∧ nrange > 0 then some (chunk.tail, m)
    else
      match getEsc chunk with
      | none => none
      | some (lo, chunk₂) =>
        match (if chunk₂.head? = some '-' then getEsc chunk₂.tail else some (lo, chunk₂)) with
        | none => none
        | some (hi, chunk₃) =>
          bracketLoop fuel chunk₃ r (m || (decide (lo ≤ r) && decide (r ≤ hi))) (nrange + 1)

/-- `filepath.matchChunk`: matches a star-free chunk at the start of `s`,
returning the unmatched remainder of `s`; `none` conflates a failed match and
`ErrBadPattern` (see the section comment). -/
def matchChunkLoop : Nat → Str → Str → Bool → Option Str
  | 0, _, _, _ => none
  | fuel + 1, chunk, s, failed0 =>
    match chunk with
    | [] => if failed0 then none else some s
    | c :: rest =>
      let failed := failed0 || s.isEmpty
      if c = '[' then
        let r := if failed then Char.ofNat 0 else s.headD (Char.ofNat 0)
        let s' := if failed then s else s.tail
        let negated := rest.head? = some '^'
        let chunk₂ := if rest.head? = some '^' then rest.tail else rest
        match bracketLoop (chunk₂.length + 1) chunk₂ r false 0 with
        | none => none
        | some (chunk₃, m) => matchChunkLoop fuel chunk₃ s' (failed || decide (m = negated))
      else if c = '?' then
        if failed then matchChunkLoop fuel rest s true
        else matchChunkLoop fuel rest s.tail (s.headD (Char.ofNat 0) == '/')
      else if c = '\\' then
        match rest with
        | [] => none
        | d :: rest₂ =>
          if failed then matchChunkLoop fuel rest₂ s true
          else matchChunkLoop fuel rest₂ s.tail (d != s.headD (Char.ofNat 0))
      else
        if failed then matchChunkLoop fuel rest s true
        else matchChunkLoop fuel rest s.tail (c != s.headD (Char.ofNat 0))

/-- Leading-star stripping of `filepath.scanChunk`. -/
def stripStars : Str → Str
  | '*' :: rest => stripStars rest
  | s => s

/-- Chunk scan of `filepath.scanChunk`: splits the star-stripped pattern at
the next `*` that is outside a character class (backslash escapes skip the
next character). -/
def scanChunkBody : Str → Bool → Str × Str
  | [], _ => ([], [])
  | c :: cs, inrange =>
    if c = '\\' then
      match cs with
      | d :: ds =>
        let (ch, rest) := scanChunkBody ds inrange
        (c :: d :: ch, rest)
      | [] => ([c], [])
    else if c = '[' then
      let (ch, rest) := scanChunkBody cs true
      (c :: ch, rest)
    else if c = ']' then
      let (ch, rest) := scanChunkBody cs false
      (c :: ch, rest)
    else if c = '*' && !inrange then ([], c :: cs)
    else
      let (ch, rest) := scanChunkBody cs inrange
      (c :: ch, rest)

/-- `filepath.scanChunk`. -/
def scanChunk (pattern : Str) : Bool × Str × Str :=
  let star := pattern.head? = some '*'
  let (chunk, rest) := scanChunkBody (stripStars pattern) false
  (decide star, chunk, rest)

mutual

/-- The `Pattern` loop of `filepath.Match`. -/
def matchLoop : Nat → Str → Str → Bool
  | 0, _, _ => false
  | fuel + 1, pattern, name =>
    match pattern with
    | [] => name.isEmpty
    | _ :: _ =>
      let (star, chunk, rest) := scanChunk pattern
      if star && chunk.isEmpty then !(name.contains '/')
      else
        match matchChunkLoop (chunk.length + 1) chunk name false with
        | some t =>
          if t.isEmpty || !rest.isEmpty then matchLoop fuel rest t
          else if star then starRetry fuel chunk rest name
          else false
        | none =>
          if star then starRetry fuel chunk rest name
          else false

/-- The star-retry loop of `filepath.Match`: skip one more (non-separator)
character of the name and try the chunk again. -/
def starRetry : Nat → Str → Str → Str → Bool
  | 0, _, _, _ => false
  | fuel + 1, chunk, rest, name =>
    match name with
    | [] => false
    | c :: cs =>
      if c = '/' then false
      else
        match matchChunkLoop (chunk.length + 1) chunk cs false with
        | some t =>
          if rest.isEmpty && !t.isEmpty then starRetry fuel chunk rest cs
          else matchLoop fuel rest t
        | none => starRetry fuel chunk rest cs

end

/-- `filepath.Match(pattern, name)` returned `(true, nil)`. -/
def goMatch (pattern name : Str) : Bool :=
  matchLoop (2 * (pattern.length + name.length + 2)) pattern name

/-- `filepath.Base` (Unix separator). -/
def baseGo (path : Str) : Str :=
  if path.isEmpty then ['.']
  else
    let p := (path.reverse.dropWhile (fun c => c == '/')).reverse
    if p.isEmpty then ['/']
    else (p.reverse.takeWhile (fun c => c != '/')).reverse

/-! ## `internal/cli` configuration (`Config`, `parsePatterns`, flag parsing)

`flag` tokenization of `os.Args` is Go standard library outside the program;
the parse model therefore starts from the values the flag set produced
(`debug`, `silent`, `version`, `help`, and the raw `--exclude`/`--include`
strings) and mirrors everything `flagParser.parse` does with them. -/

structure Config where
  Debug : Bool
  Silent : Bool
  Exclude : List Str
  Include : List Str

/-- `cli.parsePatterns`: comma-separated patterns, trimmed, empties dropped
(`nil` for the empty string). -/
def parsePatterns (patterns : Str) : List Str :=
  if patterns.isEmpty then []
  else ((splitOnCharGo ',' patterns).map trimSpaceGo).filter (fun p => !p.isEmpty)

/-- Outcome of `flagParser.parse`: either an `os.Exit` (from the version or
help handler, or from `argumentValidator.validateArgs`) or a configuration. -/
inductive ParseOutcome where
  | exit (code : Nat)
  | ok (config : Config)

/-- `flagParser.parse` after `flag` tokenization: version and help exit 0;
`validateArgs` exits 1 when both pattern sets are non-empty; otherwise the
configuration is returned. -/
def flagParserParse (debug silent showVersion showHelp : Bool)
    (excludeStr includeStr : Str) : ParseOutcome :=
  if showVersion then .exit 0
  else if showHelp then .exit 0
  else
    let config : Config :=
      { Debug := debug, Silent := silent,
        Exclude := if !excludeStr.isEmpty then parsePatterns excludeStr else [],
        Include := if !includeStr.isEmpty then parsePatterns includeStr else [] }
    if config.Exclude.length > 0 && config.Include.length > 0 then .exit 1
    else .ok config

/-! ## `internal/processing`

The filesystem is an association list from path to entry.  A `broken` entry
models a path that `os.Stat` reports as a non-empty regular file but that
cannot be opened (permission denied and the like), the way per-file I/O
failures arise in practice.  The logging collaborator is recorded as a list
of structured events, one constructor per logging call site of the package. -/

/-- File contents as byte lists. -/
inductive FsEntry where
  | file (content : List Nat)
  | broken
deriving DecidableEq

abbrev FS := List (Str × FsEntry)

/-- Filesystem lookup (`os.Stat` / `os.Open` target resolution). -/
def fsLookup : FS → Str → Option FsEntry
  | [], _ => none
  | (q, e) :: rest, p => if q = p then some e else fsLookup rest p

/-- Replace the entry at an existing path (appends touch only existing files,
so absent paths are left untouched). -/
def fsWrite : FS → Str → FsEntry → FS
  | [], _, _ => []
  | (q, e) :: rest, p, e' =>
    if q = p then (q, e') :: rest else (q, e) :: fsWrite rest p e'

/-- `processing.newlineByte` (0x0a). -/
def newlineByte : Nat := 0x0a

/-- `processing.fileExists`. -/
def fileExists (fs : FS) (filePath : Str) : Bool := (fsLookup fs filePath).isSome

/-- `processing.isFileEmpty` (a stat failure counts as empty). -/
def isFileEmpty (fs : FS) (filePath : Str) : Bool :=
  match fsLookup fs filePath with
  | none => true
  | some (.file content) => content.isEmpty
  | some .broken => false

/-- `processing.shouldProcessFile`. -/
def shouldProcessFile (fs : FS) (filePath : Str) : Bool :=
  fileExists fs filePath && !isFileEmpty fs filePath

inductive IOError where
  | notExist
  | permission
deriving DecidableEq

/-- `processing.checkLastByte`: open for read, seek to the last byte, compare
with `0x0a`.  The failed seek on an empty file yields `(true, nil)`. -/
def checkLastByte (fs : FS) (filePath : Str) : Except IOError Bool :=
  match fsLookup fs filePath with
  | none => .error .notExist
  | some .broken => .error .permission
  | some (.file []) => .ok true
  | some (.file (b :: bs)) => .ok ((b :: bs).getLastD 0 != newlineByte)

/-- `processing.addNewlineToFile`: open append-only and write one `0x0a`. -/
def addNewlineToFile (fs : FS) (filePath : Str) : Except IOError FS :=
  match fsLookup fs filePath with
  | none => .error .notExist
  | some .broken => .error .permission
  | some (.file content) => .ok (fsWrite fs filePath (.file (content ++ [newlineByte])))

/-- The wrapped errors `processing.addNewlineIfNeeded` returns. -/
inductive ProcError where
  | checkFailed (e : IOError)
  | addFailed (e : IOError)
deriving DecidableEq

/-- One structured event per logging call site of `internal/processing`. -/
inductive LogEvent where
  | debugSkipMissing
  | debugAlreadyNewline
  | debugAddingNewline
  | debugNewlineAdded
  | infoAddedNewline (filePath : Str)
  | debugSkipFiltered (filePath : Str)
  | debugProgress (processed total : Nat) (filePath : Str)
  | debugError (e : ProcError)
  | stderrError (filePath : Str) (e : ProcError)
  | showStart (files : List Str)
  | showEnd (totalFiles processedFiles : Nat)
deriving DecidableEq

/-- Result of one `addNewlineIfNeeded` call: the filesystem after the call,
the returned `error`, and the logging calls made. -/
structure AddResult where
  fs : FS
  err : Option ProcError
  events : List LogEvent
deriving DecidableEq

/-- `processing.addNewlineIfNeeded`. -/
def addNewlineIfNeeded (fs : FS) (filePath : Str) : AddResult :=
  if !shouldProcessFile fs filePath then
    { fs := fs, err := none, events := [.debugSkipMissing] }
  else
    match checkLastByte fs filePath with
    | .error e => { fs := fs, err := some (.checkFailed e), events := [] }
    | .ok false => { fs := fs, err := none, events := [.debugAlreadyNewline] }
    | .ok true =>
      match addNewlineToFile fs filePath with
      | .error e =>
        { fs := fs, err := some (.addFailed e), events := [.debugAddingNewline] }
      | .ok fs' =>
        { fs := fs', err := none,
          events := [.debugAddingNewline, .debugNewlineAdded, .infoAddedNewline filePath] }

/-- `processing.globPatternMatcher.matches`: any pattern matching the
**base name** of the path. -/
def globMatches (patterns : List Str) (path : Str) : Bool :=
  if patterns.isEmpty then false
  else patterns.any (fun pattern => goMatch pattern (baseGo path))

/-- `processing.fileFilter.shouldProcess`. -/
def shouldProcess (config : Config) (filePath : Str) : Bool :=
  if config.Include.length > 0 && !globMatches config.Include filePath then false
  else if globMatches config.Exclude filePath then false
  else true

/-- `processing.singleFileProcessor.process`: progress log, then
`processSingleFile` (= `addNewlineIfNeeded`), then error handling. -/
def singleFileProcess (fs : FS) (filePath : Str) (processed total : Nat) :
    FS × List LogEvent :=
  let r := addNewlineIfNeeded fs filePath
  (r.fs, .debugProgress processed total filePath :: r.events ++
    (match r.err with
     | some e => [.debugError e, .stderrError filePath e]
     | none => []))

/-- The loop of `processing.ProcessFiles` with its running processed count. -/
def processFilesLoop (config : Config) (fs : FS) (total count : Nat) :
    List Str → FS × Nat × List LogEvent
  | [] => (fs, count, [])
  | filePath :: rest =>
    if !shouldProcess config filePath then
      let r := processFilesLoop config fs total count rest
      (r.1, r.2.1, .debugSkipFiltered filePath :: r.2.2)
    else
      let s₁ := singleFileProcess fs filePath (count + 1) total
      let r := processFilesLoop config s₁.1 total (count + 1) rest
      (r.1, r.2.1, s₁.2 ++ r.2.2)

/-- `processing.ProcessFiles`. -/
def processFilesModel (config : Config) (fs : FS) (filePaths : List Str) :
    FS × Nat × List LogEvent :=
  processFilesLoop config fs filePaths.length 0 filePaths

/-- `processing.Run`. -/
def runModel (config : Config) (fs : FS) (input : Str) : FS × Nat × List LogEvent :=
  let filePaths := readToolInputModel input
  if filePaths.isEmpty then (fs, 0, [.showStart filePaths, .showEnd 0 0])
  else
    let r := processFilesModel config fs filePaths
    (r.1, r.2.1, .showStart filePaths :: r.2.2 ++ [.showEnd filePaths.length r.2.1])

/-- Modelled from the spec: the package snapshot's program entry point (the
`cmd` wiring that calls `cli.ParseFlags`, builds the logger and invokes
`processing.Run`, then lets the process exit) is not under `src/`; per the
spec's process-level contract the program parses flags first — any exit there
happens before any path is evaluated or file is touched — and otherwise runs
the pipeline to completion and exits 0.  Returns the exit code and the final
filesystem. -/
def mainModel (debug silent showVersion showHelp : Bool)
    (excludeStr includeStr : Str) (fs : FS) (input : Str) : Nat × FS :=
  match flagParserParse debug silent showVersion showHelp excludeStr includeStr with
  | .exit code => (code, fs)
  | .ok config => (0, (runModel config fs input).1)

/-- The matching rule claim C3 asserts, transcribed from its words (spec
side, for comparison with the source's `globPatternMatcher.matches`): a
pattern is matched against the full path or, for patterns containing no path
separator, against the base name only. -/
def claimFullPathOrBaseMatch (pattern path : Str) : Bool :=
  if '/' ∈ pattern then goMatch pattern path else goMatch pattern (baseGo path)

/-- The paths for which the orchestrator emitted a progress event (one per
`singleFileProcessor.process` call, i.e. one per attempted file). -/
def attemptedPaths (events : List LogEvent) : List Str :=
  events.filterMap (fun e =>
    match e with
    | .debugProgress _ _ p => some p
    | _ => none)

/-! ### Lemmas about the text primitives -/

theorem dropWhile_head_not (p : Char → Bool) (l : Str) :
    List.dropWhile p l = [] ∨
      ∃ c t, List.dropWhile p l = c :: t ∧ p c = false := by
  induction l with
  | nil => left; rfl
  | cons c cs ih =>
    by_cases hc : p c
    · simpa [List.dropWhile, hc] using ih
    · right
      exact ⟨c, cs, by simp [List.dropWhile, hc], by simpa using hc⟩

theorem dropWhile_eq_self_of_head (p : Char → Bool) (c : Char) (t : Str)
    (hc : p c = false) : List.dropWhile p (c :: t) = c :: t := by
  simp [List.dropWhile, hc]

theorem trimLeftGo_eq_self_of_head (c : Char) (t : Str) (hc : isSpaceGo c = false) :
    trimLeftGo (c :: t) = c :: t :=
  dropWhile_eq_self_of_head _ c t hc

theorem trimRightGo_eq_self_of_last (s : Str)
    (h : ∀ c, s.getLast? = some c → isSpaceGo c = false) : trimRightGo s = s := by
  unfold trimRightGo
  cases hs : s.reverse with
  | nil =>
    have : s = [] := by simpa using congrArg List.reverse hs
    simp [this]
  | cons c t =>
    have hlast : s.getLast? = some c := by
      rw [← List.head?_reverse, hs]; rfl
    rw [dropWhile_eq_self_of_head _ c t (h c hlast), ← hs, List.reverse_reverse]

theorem trimLeftGo_head (s : Str) :
    trimLeftGo s = [] ∨ ∃ c t, trimLeftGo s = c :: t ∧ isSpaceGo c = false :=
  dropWhile_head_not isSpaceGo s

theorem trimRightGo_last (s : Str) :
    ∀ c, (trimRightGo s).getLast? = some c → isSpaceGo c = false := by
  intro c hc
  unfold trimRightGo at hc
  rw [← List.head?_reverse, List.reverse_reverse] at hc
  rcases dropWhile_head_not isSpaceGo s.reverse with h | ⟨d, t, hdt, hd⟩
  · rw [h] at hc; cases hc
  · rw [hdt] at hc
    simp only [List.head?] at hc
    cases hc
    exact hd

theorem trimRightGo_prefix_self (s : Str) : trimRightGo s <+: s := by
  unfold trimRightGo
  have h := List.dropWhile_suffix (l := s.reverse) isSpaceGo
  have h2 : (s.reverse.dropWhile isSpaceGo).reverse <+: s.reverse.reverse :=
    List.reverse_prefix.mpr h
  rw [List.reverse_reverse] at h2
  exact h2

theorem trimRightGo_head (s : Str) (c : Char) (hs : s.head? = some c) :
    trimRightGo s = [] ∨ ∃ t', trimRightGo s = c :: t' := by
  rcases trimRightGo_prefix_self s with ⟨r, hr⟩
  cases htr : trimRightGo s with
  | nil => left; rfl
  | cons d t' =>
    right
    rw [htr] at hr
    have : s.head? = some d := by rw [← hr]; rfl
    rw [hs] at this
    cases this
    exact ⟨t', rfl⟩

theorem trimSpaceGo_head (s : Str) :
    trimSpaceGo s = [] ∨ ∃ c t, trimSpaceGo s = c :: t ∧ isSpaceGo c = false := by
  unfold trimSpaceGo
  rcases trimLeftGo_head s with h | ⟨c, t, hct, hc⟩
  · left; simp [h, trimRightGo]
  · rw [hct]
    rcases trimRightGo_head (c :: t) c rfl with h | ⟨t', ht'⟩
    · left; exact h
    · right; exact ⟨c, t', ht', hc⟩

theorem trimSpaceGo_last (s : Str) :
    ∀ c, (trimSpaceGo s).getLast? = some c → isSpaceGo c = false :=
  trimRightGo_last (trimLeftGo s)

theorem trimSpaceGo_idem (s : Str) : trimSpaceGo (trimSpaceGo s) = trimSpaceGo s := by
  rcases trimSpaceGo_head s with h | ⟨c, t, hct, hc⟩
  · rw [h]; rfl
  · rw [hct]
    unfold trimSpaceGo
    rw [trimLeftGo_eq_self_of_head c t hc]
    exact trimRightGo_eq_self_of_last (c :: t) (fun d hd =>
      trimSpaceGo_last s d (by rw [hct]; exact hd))

/-! ## Shared lemmas about the extractors -/

theorem extractPaths_pkg_eq_main (toolInput : List (Str × JValue)) :
    extractPathsFromToolInput toolInput = extractPathsFromToolInputMain toolInput := rfl

theorem parsePlainText_eq_plainTextParserParse (s : Str) :
    parsePlainText s = plainTextParserParse s := rfl

theorem pathExtractorParse_of_unmarshal_none (s : Str) (h : unmarshalMapGo s = none) :
    pathExtractorParse s = parsePlainText s := by
  simp only [pathExtractorParse, pathExtractorParseJSON, h]

theorem pathExtractorParse_of_unmarshal_some (s : Str) (kvs : List (Str × JValue))
    (h : unmarshalMapGo s = some kvs) :
    pathExtractorParse s =
      (match lookupKV kvs "tool_input".data with
        | some (.obj toolInputMap) => extractPathsFromToolInput toolInputMap
        | _ => []) := by
  simp only [pathExtractorParse, pathExtractorParseJSON, h]

/-! ## Claim C1 -/

/-- **C1.** For every input string that parses as a JSON object containing a
`tool_input` object value but from which zero paths are collected, the
package extractor (`pathExtractor.parse`) returns the empty list and does not
fall back to treating the input's lines as file paths: whenever unmarshalling
succeeds the structured result is returned as-is, so the plain-text fallback
runs only when the input cannot be parsed as JSON at all. -/
theorem extract_json_success_no_fallback (s : Str)
    (kvs toolInputMap : List (Str × JValue))
    (hparse : unmarshalMapGo s = some kvs)
    (hti : lookupKV kvs "tool_input".data = some (.obj toolInputMap))
    (hzero : extractPathsFromToolInput toolInputMap = []) :
    pathExtractorParse s = [] := by
  rw [pathExtractorParse_of_unmarshal_some s kvs hparse, hti]
  exact hzero

/-- Witness for C1: the JSON object with an empty `tool_input` extracts `[]`
(its single non-blank line is *not* returned as a path). -/
theorem extract_json_success_no_fallback_witness :
    pathExtractorParse "\x7b\"tool_input\": \x7b\x7d\x7d".data = [] :=
  extract_json_success_no_fallback _ [("tool_input".data, JValue.obj [])] []
    rfl rfl rfl

/-! ## Claim C4 -/

/-- **C4, counterexample.** On the valid JSON object without a `tool_input`
field, `pathExtractor.parse` returns `[]`, not the input's single non-blank
line as the claim states: unmarshalling succeeds, so no fallback happens. -/
theorem extract_no_toolinput_counterexample :
    pathExtractorParse "\x7b\"other\": \"data\"\x7d".data = [] ∧
    pathExtractorParse "\x7b\"other\": \"data\"\x7d".data ≠
      ["\x7b\"other\": \"data\"\x7d".data] := by
  constructor
  · rfl
  · decide

/-- **C4, amended.** Structured parsing fails only when the text is invalid
JSON (a successfully-parsed object lacking `tool_input` still suppresses the
fallback and yields `[]`); exactly when unmarshalling fails, `parse` treats
each non-blank line of the input, trimmed, as a literal file path in order —
in particular `"not json"` extracts `["not json"]`. -/
theorem extract_invalid_json_fallback :
    (∀ s : Str, unmarshalMapGo s = none →
      pathExtractorParse s =
        ((splitLines s).map trimSpaceGo).filter (fun l => !l.isEmpty)) ∧
    pathExtractorParse "not json".data = ["not json".data] := by
  constructor
  · intro s hs
    rw [pathExtractorParse_of_unmarshal_none s hs]
    rfl
  · rfl

/-- Witness for C4 (amended): invalid JSON `"123"` falls back to one path per
non-blank line. -/
theorem extract_invalid_json_fallback_witness :
    pathExtractorParse "123".data = ["123".data] :=
  (extract_invalid_json_fallback.1 "123".data rfl).trans (by rfl)

/-! ## Claim C8 -/

/-- **C8.** Paths are collected from a `tool_input` object in the fixed order
`path`, `file_path`, then the `paths` array elements in array order, keeping
only string elements and dropping empty strings; the claim's example JSON
with `paths` `["x.txt", 123, null, "y.txt"]` extracts exactly
`["x.txt", "y.txt"]`. -/
theorem extract_order_and_filtering :
    (∀ (toolInput : List (Str × JValue)) (p fp : Str) (xs : List JValue),
      lookupKV toolInput "path".data = some (.str p) → p ≠ [] →
      lookupKV toolInput "file_path".data = some (.str fp) → fp ≠ [] →
      lookupKV toolInput "paths".data = some (.arr xs) →
      extractPathsFromToolInput toolInput =
        p :: fp :: xs.filterMap (fun v =>
          match v with
          | JValue.str s => if s = [] then none else some s
          | _ => none)) ∧
    pathExtractorParse
        "\x7b\"tool_input\":\x7b\"paths\":[\"x.txt\", 123, null, \"y.txt\"]\x7d\x7d".data =
      ["x.txt".data, "y.txt".data] := by
  constructor
  · intro toolInput p fp xs hp hpne hfp hfpne hxs
    simp [extractPathsFromToolInput, hp, hfp, hxs, hpne, hfpne]
  · rfl

/-- Witness for C8: a `tool_input` with all three fields present extracts them
in the fixed order, dropping the empty string and the non-string element. -/
theorem extract_order_and_filtering_witness :
    extractPathsFromToolInput
        [("path".data, JValue.str "/a".data),
         ("file_path".data, JValue.str "/b".data),
         ("paths".data, JValue.arr [JValue.str "/c".data, JValue.number,
                                    JValue.str [], JValue.str "/d".data])] =
      ["/a".data, "/b".data, "/c".data, "/d".data] :=
  (extract_order_and_filtering.1
    [("path".data, JValue.str "/a".data),
     ("file_path".data, JValue.str "/b".data),
     ("paths".data, JValue.arr [JValue.str "/c".data, JValue.number,
                                JValue.str [], JValue.str "/d".data])]
    "/a".data "/b".data
    [JValue.str "/c".data, JValue.number, JValue.str [], JValue.str "/d".data]
    rfl (by decide) rfl (by decide) rfl).trans (by rfl)

/-! ## Claim C10 -/

/-- **C10.** In the plain-text fallback (both the package `parsePlainText` and
the single-file `PlainTextParser.Parse`), every line is trimmed before being
used as a path, so every returned path is non-empty and fixed by trimming (no
surrounding whitespace); the input line `"  a.txt  "` yields the path
`"a.txt"`, which differs from the literal line content. -/
theorem plaintext_paths_trimmed :
    (∀ s p, p ∈ parsePlainText s → p ≠ [] ∧ trimSpaceGo p = p) ∧
    (∀ s p, p ∈ plainTextParserParse s → p ≠ [] ∧ trimSpaceGo p = p) ∧
    parsePlainText "  a.txt  ".data = ["a.txt".data] := by
  have key : ∀ s p, p ∈ parsePlainText s → p ≠ [] ∧ trimSpaceGo p = p := by
    intro s p hp
    unfold parsePlainText at hp
    have hmem := List.mem_of_mem_filter hp
    have hfilt := List.of_mem_filter hp
    rcases List.mem_map.mp hmem with ⟨y, _, hy⟩
    constructor
    · intro hnil
      rw [hnil] at hfilt
      simp at hfilt
    · rw [← hy]
      exact trimSpaceGo_idem y
  exact ⟨key, fun s p hp => key s p hp, by rfl⟩

/-- Witness for C10: the membership fact for the claim's example. -/
theorem plaintext_paths_trimmed_witness :
    "a.txt".data ≠ [] ∧ trimSpaceGo "a.txt".data = "a.txt".data :=
  plaintext_paths_trimmed.1 "  a.txt  ".data "a.txt".data (by
    rw [plaintext_paths_trimmed.2.2]
    exact List.mem_singleton.mpr rfl)

/-! ## Claim C9 -/

theorem extractFilePaths_cases (text : Str) :
    extractFilePaths text = [] ∨
    ∃ kvs ti, unmarshalMapGo text = some kvs ∧
      lookupKV kvs "tool_input".data = some (.obj ti) ∧
      extractFilePaths text = extractPathsFromToolInputMain ti := by
  rcases hu : unmarshalMapGo text with _ | kvs
  · left
    simp [extractFilePaths, parseJSONToolInput, hu]
  · rcases hl : lookupKV kvs "tool_input".data with _ | v
    · left
      simp [extractFilePaths, parseJSONToolInput, hu, hl]
    · cases v with
      | obj ti =>
        right
        exact ⟨kvs, ti, rfl, hl, by simp [extractFilePaths, parseJSONToolInput, hu, hl]⟩
      | null => left; simp [extractFilePaths, parseJSONToolInput, hu, hl]
      | boolean b => left; simp [extractFilePaths, parseJSONToolInput, hu, hl]
      | number => left; simp [extractFilePaths, parseJSONToolInput, hu, hl]
      | str s' => left; simp [extractFilePaths, parseJSONToolInput, hu, hl]
      | arr xs => left; simp [extractFilePaths, parseJSONToolInput, hu, hl]

/-- **C9, counterexample.** The two path-extraction implementations disagree:
on the JSON object with an empty `tool_input`, the package `pathExtractor`
returns `[]` while the single-file `CompositeTextParser` falls back to line
interpretation and returns the input line itself as a path. -/
theorem parsers_disagree_counterexample :
    pathExtractorParse "\x7b\"tool_input\": \x7b\x7d\x7d".data = [] ∧
    compositeParse "\x7b\"tool_input\": \x7b\x7d\x7d".data =
      ["\x7b\"tool_input\": \x7b\x7d\x7d".data] ∧
    compositeParse "\x7b\"tool_input\": \x7b\x7d\x7d".data ≠
      pathExtractorParse "\x7b\"tool_input\": \x7b\x7d\x7d".data := by
  refine ⟨rfl, rfl, ?_⟩
  decide

/-- **C9, amended.** The composite parser on an input computes the same path
list as the package `pathExtractor` run on the composite's cleaned text, for
every input whose cleaned text either fails to unmarshal or yields at least
one structured path; the implementations differ exactly on successfully
unmarshalled text with zero extracted paths (the counterexample), where the
composite falls back to the non-blank lines while the extractor returns `[]`. -/
theorem parsers_agree_outside_empty_json (s : Str)
    (h : unmarshalMapGo (compositeCleanedText s) = none ∨
         extractFilePaths (compositeCleanedText s) ≠ []) :
    compositeParse s = pathExtractorParse (compositeCleanedText s) := by
  simp only [compositeCleanedText, compositeCleanLines] at h ⊢
  simp only [compositeParse]
  by_cases hT : trimSpaceGo s = []
  · simp only [hT] at h ⊢
    rfl
  · have hTb : (trimSpaceGo s).isEmpty = false := by
      cases hTS : trimSpaceGo s
      · exact absurd hTS hT
      · rfl
    simp only [hTb, Bool.false_eq_true, if_false]
    by_cases hC : ((splitLines (trimSpaceGo s)).map trimSpaceGo).filter
        (fun l => !l.isEmpty) = []
    · simp only [hC] at h ⊢
      have h0 : extractFilePaths (joinLines []) = [] := rfl
      simp only [List.isEmpty_nil, if_true, h0]
      rfl
    · have hCb : (((splitLines (trimSpaceGo s)).map trimSpaceGo).filter
          (fun l => !l.isEmpty)).isEmpty = false := by
        cases hCS : ((splitLines (trimSpaceGo s)).map trimSpaceGo).filter
            (fun l => !l.isEmpty)
        · exact absurd hCS hC
        · rfl
      simp only [hCb, Bool.false_eq_true, if_false]
      by_cases hx : extractFilePaths (joinLines
          (((splitLines (trimSpaceGo s)).map trimSpaceGo).filter
            (fun l => !l.isEmpty))) = []
      · rcases h with hu | hne
        · have hplain := pathExtractorParse_of_unmarshal_none _ hu
          simp only [hx, List.isEmpty_nil, Bool.not_true, Bool.false_eq_true, if_false]
          rw [hplain, parsePlainText_eq_plainTextParserParse]
          by_cases hp : plainTextParserParse (joinLines
              (((splitLines (trimSpaceGo s)).map trimSpaceGo).filter
                (fun l => !l.isEmpty))) = []
          · simp only [hp, List.isEmpty_nil, Bool.not_true, Bool.false_eq_true, if_false]
          · have hpb : (plainTextParserParse (joinLines
                (((splitLines (trimSpaceGo s)).map trimSpaceGo).filter
                  (fun l => !l.isEmpty)))).isEmpty = false := by
              cases hps : plainTextParserParse (joinLines
                  (((splitLines (trimSpaceGo s)).map trimSpaceGo).filter
                    (fun l => !l.isEmpty)))
              · exact absurd hps hp
              · rfl
            simp only [hpb, Bool.not_false, if_true]
        · exact absurd hx hne
      · have hxb : (extractFilePaths (joinLines
            (((splitLines (trimSpaceGo s)).map trimSpaceGo).filter
              (fun l => !l.isEmpty)))).isEmpty = false := by
          cases hxs : extractFilePaths (joinLines
              (((splitLines (trimSpaceGo s)).map trimSpaceGo).filter
                (fun l => !l.isEmpty)))
          · exact absurd hxs hx
          · rfl
        simp only [hxb, Bool.not_false, if_true]
        rcases extractFilePaths_cases (joinLines
            (((splitLines (trimSpaceGo s)).map trimSpaceGo).filter
              (fun l => !l.isEmpty))) with hz | ⟨kvs, ti, hu, hl, hz⟩
        · exact absurd hz hx
        · rw [hz, pathExtractorParse_of_unmarshal_some _ kvs hu, hl]
          rfl

/-- Witness for C9 (amended): on a JSON input whose `tool_input` yields a
path, the composite parser and the package extractor agree. -/
theorem parsers_agree_outside_empty_json_witness :
    compositeParse "\x7b\"tool_input\": \x7b\"path\": \"/a\"\x7d\x7d".data =
      pathExtractorParse
        (compositeCleanedText "\x7b\"tool_input\": \x7b\"path\": \"/a\"\x7d\x7d".data) :=
  parsers_agree_outside_empty_json _ (Or.inr (by decide))

/-! ## Claim C3 -/

/-- **C3, counterexample.** The source matches every pattern against the base
name only, never the full path: with the include pattern `a/b.go` (which
contains a path separator and, per the claim, should match the full path
`a/b.go`), `shouldProcess` rejects the path. -/
theorem shouldProcess_fullpath_counterexample :
    claimFullPathOrBaseMatch "a/b.go".data "a/b.go".data = true ∧
    shouldProcess
        (Config.mk false false [] ["a/b.go".data]) "a/b.go".data = false := by
  constructor
  · rfl
  · rfl

theorem globMatches_eq_any (patterns : List Str) (path : Str) :
    globMatches patterns path =
      patterns.any (fun pattern => goMatch pattern (baseGo path)) := by
  unfold globMatches
  cases patterns
  · rfl
  · rfl

/-- **C3, amended.** For every configuration with a non-empty include set,
`shouldProcess` accepts a path iff at least one include pattern glob-matches
the path's **base name** (patterns are never matched against the full path)
and no exclude pattern matches that base name. -/
theorem shouldProcess_basename_iff (config : Config) (path : Str)
    (hinc : config.Include ≠ []) :
    shouldProcess config path = true ↔
      ((∃ pattern ∈ config.Include, goMatch pattern (baseGo path) = true) ∧
       ∀ pattern ∈ config.Exclude, goMatch pattern (baseGo path) = false) := by
  have hlen : 0 < config.Include.length := List.length_pos.mpr hinc
  unfold shouldProcess
  rw [globMatches_eq_any, globMatches_eq_any]
  constructor
  · intro hacc
    by_cases hi : config.Include.any (fun pattern => goMatch pattern (baseGo path))
    · by_cases he : config.Exclude.any (fun pattern => goMatch pattern (baseGo path))
      · rw [if_neg (by simp [hi, hlen]), if_pos (by simp [he])] at hacc
        cases hacc
      · refine ⟨List.any_eq_true.mp hi, ?_⟩
        intro pattern hp
        have := (List.any_eq_false.mp (Bool.not_eq_true _ ▸ he)) pattern hp
        simpa using this
    · rw [if_pos (by simp [hlen, hi])] at hacc
      cases hacc
  · rintro ⟨⟨pattern, hp, hm⟩, hexc⟩
    have hi : config.Include.any (fun pattern => goMatch pattern (baseGo path)) = true :=
      List.any_eq_true.mpr ⟨pattern, hp, hm⟩
    have he : config.Exclude.any (fun pattern => goMatch pattern (baseGo path)) = false :=
      List.any_eq_false.mpr (fun q hq => by simp [hexc q hq])
    rw [if_neg (by simp [hi, hlen]), if_neg (by simp [he])]

/-- Witness for C3 (amended): include `*.go` accepts `a/b.go` via its base
name `b.go`. -/
theorem shouldProcess_basename_iff_witness :
    shouldProcess (Config.mk false false [] ["*.go".data]) "a/b.go".data = true ↔
      ((∃ pattern ∈ (Config.mk false false [] ["*.go".data] : Config).Include,
          goMatch pattern (baseGo "a/b.go".data) = true) ∧
       ∀ pattern ∈ (Config.mk false false [] ["*.go".data] : Config).Exclude,
          goMatch pattern (baseGo "a/b.go".data) = false) :=
  shouldProcess_basename_iff (Config.mk false false [] ["*.go".data]) "a/b.go".data
    (by decide)

/-! ## Claim C2 -/

theorem fsLookup_fsWrite (fs : FS) (p : Str) (e e₀ : FsEntry)
    (h : fsLookup fs p = some e₀) :
    fsLookup (fsWrite fs p e) p = some e := by
  induction fs with
  | nil => cases h
  | cons qe rest ih =>
    obtain ⟨q, e'⟩ := qe
    by_cases hq : q = p
    · simp [fsWrite, fsLookup, hq]
    · simp only [fsWrite, fsLookup, if_neg hq] at h ⊢
      exact ih h

theorem getLastD_append_single (l : List Nat) (a d : Nat) :
    (l ++ [a]).getLastD d = a := by
  induction l with
  | nil => rfl
  | cons b bs ih => simp [List.getLastD, ih]

/-- **C2.** For a file whose content is non-empty with last byte ≠ 0x0a,
`addNewlineIfNeeded` appends exactly one byte — the new content is the old
content plus `0x0a`, one byte longer, now ending in `0x0a` — returns no error,
and reports/repairs; running it again on the result reports the file as
already ending with a newline and performs no further mutation. -/
theorem normalize_repairs_and_idempotent (fs : FS) (p : Str) (c : List Nat)
    (hlk : fsLookup fs p = some (.file c)) (hne : c ≠ [])
    (hlast : c.getLastD 0 ≠ newlineByte) :
    addNewlineIfNeeded fs p =
      AddResult.mk (fsWrite fs p (.file (c ++ [newlineByte]))) none
        [.debugAddingNewline, .debugNewlineAdded, .infoAddedNewline p] ∧
    fsLookup (fsWrite fs p (.file (c ++ [newlineByte]))) p =
      some (.file (c ++ [newlineByte])) ∧
    (c ++ [newlineByte]).length = c.length + 1 ∧
    (c ++ [newlineByte]).getLastD 0 = newlineByte ∧
    addNewlineIfNeeded (fsWrite fs p (.file (c ++ [newlineByte]))) p =
      AddResult.mk (fsWrite fs p (.file (c ++ [newlineByte]))) none
        [.debugAlreadyNewline] := by
  obtain ⟨b, bs, rfl⟩ : ∃ b bs, c = b :: bs := by
    cases c with
    | nil => exact absurd rfl hne
    | cons b bs => exact ⟨b, bs, rfl⟩
  have hlk' : fsLookup (fsWrite fs p (.file ((b :: bs) ++ [newlineByte]))) p =
      some (.file ((b :: bs) ++ [newlineByte])) :=
    fsLookup_fsWrite fs p _ _ hlk
  have hbne : ((b :: bs).getLast?.getD 0 != newlineByte) = true := by
    rw [← List.getLastD_eq_getLast?]
    simpa [bne_iff_ne] using hlast
  refine ⟨?_, hlk', by simp, getLastD_append_single _ _ _, ?_⟩
  · simp [addNewlineIfNeeded, shouldProcessFile, fileExists, isFileEmpty,
      checkLastByte, addNewlineToFile, hlk, hbne]
  · have hlast' : ((b :: bs) ++ [newlineByte]).getLastD 0 = newlineByte :=
      getLastD_append_single _ _ _
    simp only [List.cons_append] at hlast'
    have h10 : (b :: (bs ++ [newlineByte])).getLast?.getD 0 = newlineByte := by
      rw [← List.getLastD_eq_getLast?]
      exact hlast'
    have hbne' : ((b :: (bs ++ [newlineByte])).getLast?.getD 0 != newlineByte) = false := by
      rw [h10]
      simp
    simp only [List.cons_append] at hlk'
    simp [addNewlineIfNeeded, shouldProcessFile, fileExists, isFileEmpty,
      checkLastByte, hlk', hbne']

/-- Witness for C2 on a one-file filesystem holding the two bytes `hi`. -/
theorem normalize_repairs_and_idempotent_witness :
    addNewlineIfNeeded [("a.txt".data, FsEntry.file [104, 105])] "a.txt".data =
      AddResult.mk
        (fsWrite [("a.txt".data, FsEntry.file [104, 105])] "a.txt".data
          (.file ([104, 105] ++ [newlineByte])))
        none
        [.debugAddingNewline, .debugNewlineAdded, .infoAddedNewline "a.txt".data] :=
  (normalize_repairs_and_idempotent [("a.txt".data, FsEntry.file [104, 105])]
    "a.txt".data [104, 105] rfl (by decide) (by decide)).1

/-! ## Claim C5 -/

/-- **C5.** For a path naming a nonexistent or zero-length file,
`addNewlineIfNeeded` reports the skip and returns no error, and the
filesystem is left unchanged no matter how many times the call is repeated:
the path is never opened for write and no byte is appended. -/
theorem normalize_skip_frame (fs : FS) (p : Str)
    (h : fsLookup fs p = none ∨ fsLookup fs p = some (.file [])) :
    addNewlineIfNeeded fs p = AddResult.mk fs none [.debugSkipMissing] ∧
    ∀ n : Nat, Nat.iterate (fun f => (addNewlineIfNeeded f p).fs) n fs = fs := by
  have hstep : addNewlineIfNeeded fs p = AddResult.mk fs none [.debugSkipMissing] := by
    rcases h with h | h
    · simp [addNewlineIfNeeded, shouldProcessFile, fileExists, isFileEmpty, h]
    · simp [addNewlineIfNeeded, shouldProcessFile, fileExists, isFileEmpty, h]
  refine ⟨hstep, ?_⟩
  intro n
  induction n with
  | zero => rfl
  | succ n ih =>
    show Nat.iterate (fun f => (addNewlineIfNeeded f p).fs) n
      ((addNewlineIfNeeded fs p).fs) = fs
    rw [hstep]
    exact ih

/-- Witness for C5: a filesystem with one empty file and a lookup miss. -/
theorem normalize_skip_frame_witness :
    addNewlineIfNeeded [("e.txt".data, FsEntry.file [])] "e.txt".data =
      AddResult.mk [("e.txt".data, FsEntry.file [])] none [.debugSkipMissing] :=
  (normalize_skip_frame [("e.txt".data, FsEntry.file [])] "e.txt".data
    (Or.inr rfl)).1

/-! ## Claim C6 -/

theorem attemptedPaths_addNewlineIfNeeded (fs : FS) (p : Str) :
    attemptedPaths (addNewlineIfNeeded fs p).events = [] := by
  unfold addNewlineIfNeeded
  split
  · rfl
  · split
    · rfl
    · rfl
    · split
      · rfl
      · rfl

theorem attemptedPaths_singleFileProcess (fs : FS) (p : Str) (k t : Nat) :
    attemptedPaths (singleFileProcess fs p k t).2 = [p] := by
  unfold singleFileProcess attemptedPaths
  simp only [List.filterMap_cons, List.filterMap_append]
  have h1 := attemptedPaths_addNewlineIfNeeded fs p
  unfold attemptedPaths at h1
  rw [h1]
  cases (addNewlineIfNeeded fs p).err
  · rfl
  · rfl

theorem processFilesLoop_attempts (config : Config) (paths : List Str) :
    ∀ (fs : FS) (total count : Nat),
      attemptedPaths (processFilesLoop config fs total count paths).2.2 =
        paths.filter (fun p => shouldProcess config p) ∧
      (processFilesLoop config fs total count paths).2.1 =
        count + (paths.filter (fun p => shouldProcess config p)).length := by
  induction paths with
  | nil =>
    intro fs total count
    exact ⟨rfl, by simp [processFilesLoop]⟩
  | cons p rest ih =>
    intro fs total count
    by_cases hp : shouldProcess config p
    · have ih' := ih (singleFileProcess fs p (count + 1) total).1 total (count + 1)
      simp only [processFilesLoop, hp, Bool.not_true, Bool.false_eq_true, if_false]
      unfold attemptedPaths at ih' ⊢
      rw [List.filterMap_append]
      have hsp := attemptedPaths_singleFileProcess fs p (count + 1) total
      unfold attemptedPaths at hsp
      rw [hsp, ih'.1, List.filter_cons_of_pos (by simpa using hp)]
      refine ⟨rfl, ?_⟩
      rw [ih'.2]
      simp
      omega
    · have hp' : shouldProcess config p = false := by simpa using hp
      have ih' := ih fs total count
      simp only [processFilesLoop, hp', Bool.not_false, if_true]
      unfold attemptedPaths at ih' ⊢
      rw [List.filterMap_cons]
      simp only []
      rw [List.filter_cons_of_neg (by simp [hp'])]
      exact ⟨ih'.1, ih'.2⟩

/-- **C6.** The orchestrator never short-circuits and never retries: for every
configuration, filesystem (including ones on which some files fail with I/O
errors) and path list, the progress events of `ProcessFiles` record exactly
the filtered paths, in order, one attempt each — a `Failed` outcome at any
position leaves the processing of all subsequent paths intact — and the
returned processed count is the number of filtered paths. -/
theorem processFiles_no_short_circuit (config : Config) (fs : FS)
    (filePaths : List Str) :
    attemptedPaths (processFilesModel config fs filePaths).2.2 =
      filePaths.filter (fun p => shouldProcess config p) ∧
    (processFilesModel config fs filePaths).2.1 =
      (filePaths.filter (fun p => shouldProcess config p)).length := by
  have h := processFilesLoop_attempts config filePaths fs filePaths.length 0
  exact ⟨h.1, by simpa using h.2⟩

/-! ## Claim C7 -/

theorem parsePatterns_if_eq (str : Str) :
    (if !str.isEmpty then parsePatterns str else []) = parsePatterns str := by
  cases str
  · rfl
  · rfl

/-- **C7.** A configuration with both non-empty include and exclude pattern
sets is rejected by `validateArgs` inside flag parsing as a fatal exit-1
before the pipeline runs (the filesystem at exit is the initial one — no path
evaluated, no file touched); conversely a non-zero exit happens **only** for
that configuration error, so per-file I/O failures (any filesystem, any
input) leave the exit code 0. -/
theorem config_error_exit :
    (∀ (debug silent : Bool) (excludeStr includeStr : Str) (fs : FS) (input : Str),
      parsePatterns excludeStr ≠ [] → parsePatterns includeStr ≠ [] →
      mainModel debug silent false false excludeStr includeStr fs input = (1, fs)) ∧
    (∀ (debug silent showVersion showHelp : Bool) (excludeStr includeStr : Str)
        (fs : FS) (input : Str),
      (mainModel debug silent showVersion showHelp excludeStr includeStr fs input).1 ≠ 0 →
      parsePatterns excludeStr ≠ [] ∧ parsePatterns includeStr ≠ [] ∧
      mainModel debug silent showVersion showHelp excludeStr includeStr fs input =
        (1, fs)) := by
  have hexit : ∀ (debug silent : Bool) (excludeStr includeStr : Str),
      parsePatterns excludeStr ≠ [] → parsePatterns includeStr ≠ [] →
      flagParserParse debug silent false false excludeStr includeStr =
        ParseOutcome.exit 1 := by
    intro debug silent excludeStr includeStr hex hin
    simp only [flagParserParse, if_neg (by simp : ¬(false = true)),
      parsePatterns_if_eq]
    rw [if_pos]
    simp only [Bool.and_eq_true, decide_eq_true_eq]
    exact ⟨List.length_pos.mpr hex, List.length_pos.mpr hin⟩
  constructor
  · intro debug silent excludeStr includeStr fs input hex hin
    simp [mainModel, hexit debug silent excludeStr includeStr hex hin]
  · intro debug silent showVersion showHelp excludeStr includeStr fs input hne
    cases showVersion
    · cases showHelp
      · by_cases hex : parsePatterns excludeStr = []
        · exfalso
          apply hne
          have hnc : ¬((decide ((parsePatterns excludeStr).length > 0) &&
              decide ((parsePatterns includeStr).length > 0)) = true) := by
            simp [hex]
          simp only [mainModel, flagParserParse, if_neg (by simp : ¬(false = true)),
            parsePatterns_if_eq, if_neg hnc]
        · by_cases hin : parsePatterns includeStr = []
          · exfalso
            apply hne
            have hnc : ¬((decide ((parsePatterns excludeStr).length > 0) &&
                decide ((parsePatterns includeStr).length > 0)) = true) := by
              simp [hin]
            simp only [mainModel, flagParserParse, if_neg (by simp : ¬(false = true)),
              parsePatterns_if_eq, if_neg hnc]
          · refine ⟨hex, hin, ?_⟩
            simp [mainModel, hexit debug silent excludeStr includeStr hex hin]
      · exact absurd (by simp [mainModel, flagParserParse] : (mainModel debug silent
          false true excludeStr includeStr fs input).1 = 0) hne
    · exact absurd (by simp [mainModel, flagParserParse] : (mainModel debug silent
        true showHelp excludeStr includeStr fs input).1 = 0) hne

/-- Witness for C7: with both `*.txt` excluded and `*.go` included the
process exits 1 with the filesystem untouched. -/
theorem config_error_exit_witness :
    mainModel false false false false "*.txt".data "*.go".data
      [("a.go".data, FsEntry.file [104])] "a.go".data =
      (1, [("a.go".data, FsEntry.file [104])]) :=
  config_error_exit.1 false false "*.txt".data "*.go".data
    [("a.go".data, FsEntry.file [104])] "a.go".data (by decide) (by decide)

end Ccnewline
